import Mathlib

/-!
# A verification development for the memfs in-memory filesystem

This file gives a shallow embedding of the memfs package (an in-memory
hierarchical filesystem implementing the io/fs access contract) and proves
properties of its operations.

Modelling conventions:

* The Go `map[string]childI` child mapping of a directory is modelled as an
  association list in map-iteration order; Go's map-key uniqueness is an
  invariant (`wfAt`) proved for all reachable states rather than baked into
  the representation.
* Byte slices are `List Nat`, permission bits (`os.FileMode`) are `Nat`.
* Go methods that mutate the receiver in place are modelled as functions
  returning the new state together with an `Option String` error; every
  error branch of the source returns before mutating, except where the
  threading below reproduces the partial in-place updates exactly.
* Errors are modelled by their Go message strings.
* The per-directory mutexes guard single-level map access only; a purely
  sequential model is faithful for the single-caller properties proved here.
-/

namespace Memfs

/-- A node of the tree: a `File` (name, permission bits, byte content) or a
directory (name, permission bits, child mapping).  Mirrors the Go `File` and
`dir` structs; `modTime` is never assigned in the source (it always holds the
zero value) and is omitted. -/
inductive Node where
  | file (name : String) (perm : Nat) (content : List Nat)
  | dir (name : String) (perm : Nat) (children : List (String × Node))

/-- A directory's child mapping (also the whole filesystem state, as the root
directory's mapping: `FS.dir.children` in the source). -/
abbrev Tree := List (String × Node)

/-- Reading `children[part]` from a directory's child map. -/
def lookupChild : Tree → String → Option Node
  | [], _ => none
  | (k, n) :: rest, key => if k = key then some n else lookupChild rest key

/-- Writing `children[part] = node` into a directory's child map: replace the
entry if the key is present, otherwise add it. -/
def insertChild : Tree → String → Node → Tree
  | [], key, n => [(key, n)]
  | (k, m) :: rest, key, n =>
      if k = key then (key, n) :: rest else (k, m) :: insertChild rest key n

/-- Go `strings.Split(s, sep)` for a one-character separator: the fields
around every occurrence of `sep`; the empty string yields `[""]`. -/
def splitOnChar (sep : Char) : List Char → List String
  | [] => [""]
  | c :: rest =>
      match splitOnChar sep rest with
      | [] => [""]
      | h :: t =>
          if c = sep then "" :: h :: t
          else String.mk (c :: h.data) :: t

/-- `strings.Split(path, "/")` on the path strings used by the source. -/
def splitPath (s : String) : List String := splitOnChar '/' s.data

/-- One path element of `io/fs.ValidPath`: non-empty and neither "." nor "..". -/
def validElem (e : String) : Bool := decide (e ≠ "" ∧ e ≠ "." ∧ e ≠ "..")

/-- `io/fs.ValidPath`: "." names the root; otherwise every slash-separated
element must be non-empty and neither "." nor "..".  (The UTF-8 validity
check of the Go original holds for every Lean string.) -/
def validPath (name : String) : Bool :=
  if name = "." then true else (splitPath name).all validElem

/-- The segment loop of `FS.MkdirAll` (source lines 50-73): walk the parts,
creating a fresh empty directory with permission `perm` for a missing
segment, descending through an existing directory, and failing on an
existing file.  The returned tree reflects the in-place mutations performed
before a failure (the source mutates through pointers as it walks). -/
def mkdirParts (perm : Nat) : Tree → List String → Tree × Option String
  | t, [] => (t, none)
  | t, part :: rest =>
      match lookupChild t part with
      | none =>
          let r := mkdirParts perm [] rest
          (insertChild t part (Node.dir part perm r.1), r.2)
      | some (Node.file _ _ _) => (t, some (part ++ " is not a directory"))
      | some (Node.dir nm pm sub) =>
          let r := mkdirParts perm sub rest
          (insertChild t part (Node.dir nm pm r.1), r.2)

/-- `FS.MkdirAll`: validate the path, accept "." as an always-existing root,
otherwise run the creating walk. -/
def MkdirAll (t : Tree) (path : String) (perm : Nat) : Tree × Option String :=
  if validPath path then
    if path = "." then (t, none)
    else mkdirParts perm t (splitPath path)
  else (t, some "Invalid path")

/-- `FS.getDir` on already-split parts: resolve a directory (returning its
child mapping), failing on a missing segment or on a file segment.
`FS.getDir`'s `path == ""` case is the `[]` case here. -/
def getDirParts : Tree → List String → Except String Tree
  | t, [] => .ok t
  | t, part :: rest =>
      match lookupChild t part with
      | none => .error "no such file or directory"
      | some (Node.file _ _ _) => .error "not a directory"
      | some (Node.dir _ _ sub) => getDirParts sub rest

/-- `FS.get` on already-split (non-empty) parts: resolve a node; a file is
accepted only as the final segment.  The `[]` case is unreachable
(`splitPath` never returns `[]`); `FS.get` answers the root directory for
the empty path before splitting, which `getT` handles. -/
def getParts (t : Tree) : List String → Except String Node
  | [] => .ok (Node.dir "" 0 t)
  | part :: rest =>
      match lookupChild t part with
      | none => .error "no such file or directory"
      | some c =>
          if rest.isEmpty then .ok c
          else
            match c with
            | Node.file _ _ _ => .error "not a directory"
            | Node.dir _ _ sub => getParts sub rest

/-- `FS.get`: the empty path resolves to the root directory (name "",
permission 0 in the source's zero-valued root), otherwise walk the split
path. -/
def getT (t : Tree) (path : String) : Except String Node :=
  if path = "" then .ok (Node.dir "" 0 t)
  else getParts t (splitPath path)

/-- The body of `FS.create` after validation, fused with the `FS.getDir`
walk it calls (the Go code resolves the parent directory through `getDir`
and then mutates it through the returned pointer; purely, the walk rebuilds
the spine).  At the parent, an existing directory under the leaf name is
`"path is a directory"`; otherwise the leaf file is stored.  `perm` and
`content` are the values the caller immediately assigns through the
returned `*File` pointer (`FS.create` itself uses permission `0o666` and
empty content; `FS.WriteFile` reassigns `f.content` and `f.perm` before the
file is observable). -/
def createWalk (f : String) (perm : Nat) (content : List Nat) :
    Tree → List String → Tree × Option String
  | t, [] =>
      match lookupChild t f with
      | some (Node.dir _ _ _) => (t, some "path is a directory")
      | _ => (insertChild t f (Node.file f perm content), none)
  | t, part :: rest =>
      match lookupChild t part with
      | none => (t, some "no such file or directory")
      | some (Node.file _ _ _) => (t, some "not a directory")
      | some (Node.dir nm pm sub) =>
          let r := createWalk f perm content sub rest
          (insertChild t part (Node.dir nm pm r.1), r.2)

/-- `FS.create`, parameterized by the file fields: validate, map "." to "",
split off the leaf name (`path.Split` plus the trailing-slash trim equals
taking the last slash-separated element, since for the valid paths that
reach this point joining `parts.dropLast` with "/" and re-splitting is the
identity), resolve the parent and store the leaf. -/
def createWith (t : Tree) (path : String) (perm : Nat) (content : List Nat) :
    Tree × Option String :=
  if validPath path then
    let path2 := if path = "." then "" else path
    let parts := splitPath path2
    createWalk (parts.getLastD "") perm content t parts.dropLast
  else (t, some "Invalid path")

/-- `FS.create` as called directly: a fresh file with permission `0o666`
and empty content. -/
def create (t : Tree) (path : String) : Tree × Option String :=
  createWith t path 0o666 []

/-- `FS.WriteFile`: validate, map "." to "", then `create` followed by the
assignments `f.content = bytes.NewBuffer(data)` and `f.perm = perm` through
the returned pointer (fused into `createWith`'s leaf insertion). -/
def WriteFile (t : Tree) (path : String) (data : List Nat) (perm : Nat) :
    Tree × Option String :=
  if validPath path then
    let path2 := if path = "." then "" else path
    createWith t path2 perm data
  else (t, some "Invalid path")

/-- A `File` handle as returned by `FS.Open`: an independent copy of the
stored file's name, permission and bytes.  The `bytes.Buffer` read state is
the consumed-prefix cursor `pos` (the buffer holds `content.drop pos`), so
`content` is the snapshot taken at open time and `pos` starts at 0. -/
structure File where
  name : String
  perm : Nat
  content : List Nat
  pos : Nat
  closed : Bool

/-- A directory handle (`fhDir`): the source stores a pointer to the live
`dir` plus the enumeration cursor `idx`; the directory's fields are inlined
here. -/
structure fhDir where
  name : String
  perm : Nat
  children : Tree
  idx : Nat

/-- The `fs.File` returned by `FS.Open`: a file handle or a directory
handle (the `default` arm of the source's type switch is unreachable in the
closed sum). -/
inductive Handle where
  | fileH (f : File)
  | dirH (d : fhDir)

/-- `FS.Open`: validate (an invalid name yields the
`fs.PathError{Err: fs.ErrInvalid}` value, rendered here by its message),
map "." to "", resolve with `FS.get`, and build the independent handle:
for a file, a copy of name, permission and bytes with a fresh cursor; for a
directory, an `fhDir` with cursor 0. -/
def Open (t : Tree) (name : String) : Except String Handle :=
  if validPath name then
    let name2 := if name = "." then "" else name
    match getT t name2 with
    | .error e => .error e
    | .ok (Node.file nm pm content) => .ok (Handle.fileH ⟨nm, pm, content, 0, false⟩)
    | .ok (Node.dir nm pm children) => .ok (Handle.dirH ⟨nm, pm, children, 0⟩)
  else .error "open: invalid argument"

/-- The `fs.FileInfo` values produced by `Stat` and by directory entries:
name, size and mode bits (`modTime` is always the zero value and omitted). -/
structure FileInfo where
  name : String
  size : Nat
  mode : Nat
deriving DecidableEq

/-- `fs.ModeDir`, the directory bit of `fs.FileMode`. -/
def ModeDir : Nat := 2 ^ 31

/-- `File.Stat`: fails once closed, otherwise reports the name, the
`bytes.Buffer` length (the unread byte count) and the permission bits. -/
def File.Stat (f : File) : Except String FileInfo :=
  if f.closed then .error "file closed"
  else .ok ⟨f.name, f.content.length - f.pos, f.perm⟩

/-- `File.Read` with a destination buffer of length `n`: fails once closed;
an exhausted buffer answers `io.EOF` (except for an empty destination);
otherwise it copies `min n remaining` bytes and advances the cursor
(`bytes.Buffer.Read` semantics). -/
def File.Read (f : File) (n : Nat) : List Nat × File × Option String :=
  if f.closed then ([], f, some "file closed")
  else if f.content.length ≤ f.pos then
    if n = 0 then ([], f, none) else ([], f, some "EOF")
  else
    let m := min n (f.content.length - f.pos)
    ((f.content.drop f.pos).take m, { f with pos := f.pos + m }, none)

/-- `File.Close`: the first call marks the handle closed; any further call
fails. -/
def File.Close (f : File) : File × Option String :=
  if f.closed then (f, some "file closed")
  else ({ f with closed := true }, none)

/-- Reading a handle to exhaustion (the `io.ReadAll` / `fs.ReadFile` loop
over `File.Read`): one `Read` of the full remaining length returns every
unread byte, and `read_chunk_append` below shows that chunked reads
concatenate to the same byte sequence. -/
def File.ReadToEnd (f : File) : List Nat × File × Option String :=
  File.Read f (f.content.length - f.pos)

/-- Modelled from the spec: the repository's `File.Seek` method is not among
the sources here (the test suite asserts that an opened file implements
`io.Seeker`); per the specification it repositions the cursor relative to
start (whence 0), current position (whence 1) or end (whence 2), clamped to
`[0, length]`, fails if called after `Close`, and returns the new offset. -/
def File.Seek (f : File) (offset : Int) (whence : Nat) : Int × File × Option String :=
  if f.closed then (0, f, some "file closed")
  else
    let base : Int := if whence = 0 then 0
      else if whence = 1 then (f.pos : Int) else (f.content.length : Int)
    let target : Int := min (max (base + offset) 0) (f.content.length : Int)
    (target, { f with pos := target.toNat }, none)

/-- The directory-entry projection of `fhDir.ReadDir`: a file child is
reported through `File.Stat` on the stored node (never closed, cursor 0);
a directory child is reported with the synthetic size 4096 and the
`fs.ModeDir` bit. -/
def mkEntry : String × Node → FileInfo
  | (_, Node.file nm pm content) => ⟨nm, content.length, pm⟩
  | (_, Node.dir nm pm _) => ⟨nm, 4096, pm ||| ModeDir⟩

/-- `fhDir.ReadDir n` (source lines 284-340), translated branch by branch:
`names` is the key list of the child map in iteration order; an exhausted
cursor with `n ≤ 0` answers an empty result without error; `io.EOF` is
prepared when `n > 0` requests past the end; `n ≤ 0` is replaced by the
full length; then the loop `for i := d.idx; i < n && i < len(names); i++`
collects entries — its upper bound is the reassigned `n` itself, so the
collected range is `[idx, min n len)` and the cursor moves to its end when
the loop runs at all. -/
def fhDir.ReadDir (d : fhDir) (n : Int) : List FileInfo × fhDir × Option String :=
  let len := d.children.length
  if n ≤ 0 ∧ len ≤ d.idx then ([], d, none)
  else
    let err : Option String :=
      if 0 < n ∧ (len : Int) < (d.idx : Int) + n then some "EOF" else none
    if 0 < n ∧ (len : Int) < (d.idx : Int) + n ∧ (len : Int) < (d.idx : Int) then
      ([], d, err)
    else
      let m : Int := if n ≤ 0 then (len : Int) else n
      let stop : Nat := (min m (len : Int)).toNat
      let out := ((d.children.drop d.idx).take (stop - d.idx)).map mkEntry
      (out, { d with idx := max d.idx stop }, err)

/-- The open-hook callback installed by `WithOpenHook` (options.go): it
receives the path, the existing content (`none` for a nil slice) and the
original error (`none` for nil), and answers replacement content and an
error. -/
abbrev OpenHookFn := String → Option (List Nat) → Option String → List Nat × Option String

/-- Modelled from the spec: the hook-aware construction (`New` with
options) and the hook invocation inside `Open` are not among the sources
here (only `WithOpenHook` and the hook's test are).  Per the specification,
`Open` on a filesystem carrying a hook runs the normal resolution, then
offers the hook the path, the best-effort prior content (`none` if none)
and the resolution error; the hook's answer replaces the outcome, a
replacement for a previously missing file materializing with the default
permission `0o666`.  Directory handles carry no content and are returned
unchanged. -/
def OpenWithHook (t : Tree) (hook : OpenHookFn) (name : String) : Except String Handle :=
  if validPath name then
    let name2 := if name = "." then "" else name
    match getT t name2 with
    | .ok (Node.dir nm pm children) => .ok (Handle.dirH ⟨nm, pm, children, 0⟩)
    | .ok (Node.file nm pm content) =>
        match hook name (some content) none with
        | (c2, none) => .ok (Handle.fileH ⟨nm, pm, c2, 0, false⟩)
        | (_, some e) => .error e
    | .error e =>
        match hook name none (some e) with
        | (c2, none) => .ok (Handle.fileH ⟨name, 0o666, c2, 0, false⟩)
        | (_, some e2) => .error e2
  else .error "open: invalid argument"

/-- The two node kinds, for stating type-preservation invariants. -/
inductive Kind where
  | file
  | dir
deriving DecidableEq

/-- The kind of a node. -/
def nodeKind : Node → Kind
  | Node.file _ _ _ => Kind.file
  | Node.dir _ _ _ => Kind.dir

/-- The kind of the node stored at a path (given as segments), `none` when
the walk fails; the empty path is the root directory. -/
def kindAt (t : Tree) : List String → Option Kind
  | [] => some Kind.dir
  | part :: rest =>
      match lookupChild t part with
      | none => none
      | some n =>
          if rest.isEmpty then some (nodeKind n)
          else
            match n with
            | Node.file _ _ _ => none
            | Node.dir _ _ sub => kindAt sub rest

/-- The child mapping of the directory reached by a path (as segments). -/
def childrenAt (t : Tree) : List String → Option Tree
  | [] => some t
  | part :: rest =>
      match lookupChild t part with
      | some (Node.dir _ _ sub) => childrenAt sub rest
      | _ => none

/-- `k` does not occur among the keys of a child map. -/
def keyAbsent (k : String) : Tree → Bool
  | [] => true
  | (k2, _) :: rest => if k2 = k then false else keyAbsent k rest

/-- The keys of a child map are pairwise distinct (Go map-key uniqueness). -/
def keysNodup : Tree → Bool
  | [] => true
  | (k, _) :: rest => keyAbsent k rest && keysNodup rest

/-- Well-formedness of a state: every directory reachable in the tree maps
each child name to at most one node. -/
def wfAt (t : Tree) : Prop :=
  ∀ q d, childrenAt t q = some d → keysNodup d = true

/-- Well-formedness of a single node's payload. -/
def nodeOk : Node → Prop
  | Node.file _ _ _ => True
  | Node.dir _ _ sub => wfAt sub

/-- The tree-mutating operation alphabet of the public surface. -/
inductive Op where
  | mkdirAllOp (path : String) (perm : Nat)
  | writeFileOp (path : String) (data : List Nat) (perm : Nat)
  | openOp (name : String)

/-- The effect of one operation on the stored tree (`Open` builds handles
but never mutates the tree). -/
def step (t : Tree) : Op → Tree
  | Op.mkdirAllOp p pm => (MkdirAll t p pm).1
  | Op.writeFileOp p d pm => (WriteFile t p d pm).1
  | Op.openOp _ => t

/-- Running an operation sequence from the fresh filesystem of `New`
(an empty root mapping). -/
def run (ops : List Op) : Tree := ops.foldl step []

/-! ## Basic child-map lemmas -/

theorem lookup_insertChild_self (t : Tree) (k : String) (n : Node) :
    lookupChild (insertChild t k n) k = some n := by
  induction t with
  | nil => simp [insertChild, lookupChild]
  | cons hd rest ih =>
      obtain ⟨k2, m⟩ := hd
      by_cases h : k2 = k
      · simp [insertChild, h, lookupChild]
      · simp [insertChild, h, lookupChild, ih]

theorem lookup_insertChild_ne (t : Tree) (k k2 : String) (n : Node) (hne : k2 ≠ k) :
    lookupChild (insertChild t k n) k2 = lookupChild t k2 := by
  have hne2 : k ≠ k2 := fun hh => hne hh.symm
  induction t with
  | nil => simp [insertChild, lookupChild, hne2]
  | cons hd rest ih =>
      obtain ⟨k3, m⟩ := hd
      by_cases h : k3 = k
      · subst h
        simp [insertChild, lookupChild, hne2]
      · by_cases h2 : k3 = k2
        · subst h2
          simp [insertChild, lookupChild, h]
        · simp [insertChild, lookupChild, h, h2, ih]

theorem insertChild_lookup_id (t : Tree) (k : String) (v : Node)
    (h : lookupChild t k = some v) : insertChild t k v = t := by
  induction t with
  | nil => simp [lookupChild] at h
  | cons hd rest ih =>
      obtain ⟨k2, m⟩ := hd
      by_cases h2 : k2 = k
      · subst h2
        simp [lookupChild] at h
        simp [insertChild, h]
      · simp [lookupChild, h2] at h
        simp [insertChild, h2, ih h]

/-! ## Path-walk lemmas -/

/-- `FS.get` on `parent ++ [leaf]` factors through `FS.getDir` on the
parent followed by a leaf lookup. -/
theorem getParts_concat (dp : List String) (t : Tree) (f : String) :
    getParts t (dp ++ [f]) =
      match getDirParts t dp with
      | .error e => .error e
      | .ok d =>
          match lookupChild d f with
          | none => .error "no such file or directory"
          | some c => .ok c := by
  induction dp generalizing t with
  | nil =>
      simp only [List.nil_append, getDirParts]
      cases h : lookupChild t f <;> simp [getParts, h]
  | cons part rest ih =>
      cases h : lookupChild t part with
      | none =>
          cases rest <;> simp [getParts, getDirParts, h]
      | some c =>
          cases c with
          | file nm pm content =>
              cases rest <;> simp [getParts, getDirParts, h]
          | dir nm pm sub =>
              have hs := ih sub
              cases rest with
              | nil => simp [getParts, getDirParts, h]
              | cons r rs => simpa [getParts, getDirParts, h] using hs

/-- A failing parent resolution makes `createWalk` fail with the same error
and leave the tree untouched. -/
theorem createWalk_parent_err (dp : List String) (t : Tree) (f : String)
    (pm : Nat) (c : List Nat) (e : String)
    (h : getDirParts t dp = .error e) :
    createWalk f pm c t dp = (t, some e) := by
  induction dp generalizing t with
  | nil => simp [getDirParts] at h
  | cons part rest ih =>
      cases hl : lookupChild t part with
      | none =>
          simp [getDirParts, hl] at h
          simp [createWalk, hl, h]
      | some cn =>
          cases cn with
          | file nm2 pm2 c2 =>
              simp [getDirParts, hl] at h
              simp [createWalk, hl, h]
          | dir nm2 pm2 sub =>
              simp [getDirParts, hl] at h
              have hr := ih sub h
              simp [createWalk, hl, hr, insertChild_lookup_id t part _ hl]

/-- A directory under the leaf name makes `createWalk` fail with
"path is a directory" and leave the tree untouched. -/
theorem createWalk_dir_leaf (dp : List String) (t d : Tree) (f : String)
    (pm : Nat) (c : List Nat) (nm2 : String) (pm2 : Nat) (sub2 : Tree)
    (h : getDirParts t dp = .ok d)
    (hl : lookupChild d f = some (Node.dir nm2 pm2 sub2)) :
    createWalk f pm c t dp = (t, some "path is a directory") := by
  induction dp generalizing t with
  | nil =>
      simp [getDirParts] at h
      subst h
      simp [createWalk, hl]
  | cons part rest ih =>
      cases hp : lookupChild t part with
      | none => simp [getDirParts, hp] at h
      | some cn =>
          cases cn with
          | file nm3 pm3 c3 => simp [getDirParts, hp] at h
          | dir nm3 pm3 sub3 =>
              simp [getDirParts, hp] at h
              have hr := ih sub3 h
              simp [createWalk, hp, hr, insertChild_lookup_id t part _ hp]

/-- Successful `createWalk`: no error, and the parent directory's mapping
in the new tree is the old parent with the leaf file stored. -/
theorem createWalk_ok (dp : List String) (t d : Tree) (f : String)
    (pm : Nat) (c : List Nat)
    (h : getDirParts t dp = .ok d)
    (hnd : ∀ nm2 pm2 sub2, lookupChild d f ≠ some (Node.dir nm2 pm2 sub2)) :
    (createWalk f pm c t dp).2 = none ∧
      getDirParts (createWalk f pm c t dp).1 dp =
        .ok (insertChild d f (Node.file f pm c)) := by
  induction dp generalizing t with
  | nil =>
      simp [getDirParts] at h
      subst h
      cases hl : lookupChild t f with
      | none => simp [createWalk, hl, getDirParts]
      | some cn =>
          cases cn with
          | file nm2 pm2 c2 => simp [createWalk, hl, getDirParts]
          | dir nm2 pm2 sub2 => exact absurd hl (hnd nm2 pm2 sub2)
  | cons part rest ih =>
      cases hp : lookupChild t part with
      | none => simp [getDirParts, hp] at h
      | some cn =>
          cases cn with
          | file nm3 pm3 c3 => simp [getDirParts, hp] at h
          | dir nm3 pm3 sub3 =>
              simp [getDirParts, hp] at h
              obtain ⟨h1, h2⟩ := ih sub3 h
              simp [createWalk, hp, h1, getDirParts,
                lookup_insertChild_self, h2]

/-! ## MkdirAll lemmas -/

/-- Walking in create mode from an empty directory never fails: every
segment is missing and gets created. -/
theorem mkdirParts_nil (pm : Nat) (parts : List String) :
    (mkdirParts pm [] parts).2 = none := by
  induction parts with
  | nil => simp [mkdirParts]
  | cons part rest ih => simp [mkdirParts, lookupChild, ih]

/-- A failing `MkdirAll` walk leaves the tree unchanged: a failure happens
only at an existing file segment, before any directory is created. -/
theorem mkdirParts_err_id (pm : Nat) (parts : List String) (t : Tree)
    (h : (mkdirParts pm t parts).2 ≠ none) : (mkdirParts pm t parts).1 = t := by
  induction parts generalizing t with
  | nil => simp [mkdirParts] at h
  | cons part rest ih =>
      cases hl : lookupChild t part with
      | none =>
          simp [mkdirParts, hl, mkdirParts_nil] at h
      | some cn =>
          cases cn with
          | file nm pm2 c => simp [mkdirParts, hl]
          | dir nm pm2 sub =>
              simp [mkdirParts, hl] at h ⊢
              rw [ih sub h, insertChild_lookup_id t part _ hl]

/-- A successful `MkdirAll` walk is idempotent: running it again on the
resulting tree changes nothing and reports no error. -/
theorem mkdirParts_idem (pm : Nat) (parts : List String) (t : Tree)
    (h : (mkdirParts pm t parts).2 = none) :
    mkdirParts pm (mkdirParts pm t parts).1 parts = ((mkdirParts pm t parts).1, none) := by
  induction parts generalizing t with
  | nil => simp [mkdirParts]
  | cons part rest ih =>
      cases hl : lookupChild t part with
      | none =>
          have hsub : (mkdirParts pm [] rest).2 = none := mkdirParts_nil pm rest
          have hi := ih [] hsub
          simp [mkdirParts, hl, lookup_insertChild_self, hi]
          rw [insertChild_lookup_id _ part _ (lookup_insertChild_self t part _)]
      | some cn =>
          cases cn with
          | file nm pm2 c => simp [mkdirParts, hl] at h
          | dir nm pm2 sub =>
              simp [mkdirParts, hl] at h
              have hi := ih sub h
              simp [mkdirParts, hl, lookup_insertChild_self, hi]
              rw [insertChild_lookup_id _ part _ (lookup_insertChild_self t part _)]

/-! ## Kind preservation -/

/-- Storing under a previously absent key never changes the kind of an
existing node. -/
theorem kindAt_insert_of_none (t : Tree) (k : String) (n : Node)
    (hl : lookupChild t k = none) (q : List String) (kk : Kind)
    (h : kindAt t q = some kk) : kindAt (insertChild t k n) q = some kk := by
  cases q with
  | nil => simpa [kindAt] using h
  | cons p rest =>
      by_cases hp : p = k
      · subst hp
        simp [kindAt, hl] at h
      · have he : kindAt (insertChild t k n) (p :: rest) = kindAt t (p :: rest) := by
          simp only [kindAt, lookup_insertChild_ne t k p n hp]
        rw [he]
        exact h

/-- Replacing a stored file by a file never changes the kind of an existing
node. -/
theorem kindAt_insert_file (t : Tree) (k : String)
    (nm : String) (pm : Nat) (c : List Nat)
    (nm2 : String) (pm2 : Nat) (c2 : List Nat)
    (hl : lookupChild t k = some (Node.file nm pm c)) (q : List String) (kk : Kind)
    (h : kindAt t q = some kk) :
    kindAt (insertChild t k (Node.file nm2 pm2 c2)) q = some kk := by
  cases q with
  | nil => simpa [kindAt] using h
  | cons p rest =>
      by_cases hp : p = k
      · subst hp
        cases rest with
        | nil =>
            simp [kindAt, hl, nodeKind] at h
            simp [kindAt, lookup_insertChild_self, nodeKind, h]
        | cons r rs => simp [kindAt, hl] at h
      · have he : kindAt (insertChild t k (Node.file nm2 pm2 c2)) (p :: rest) =
            kindAt t (p :: rest) := by
          simp only [kindAt, lookup_insertChild_ne t k p _ hp]
        rw [he]
        exact h

/-- Replacing a stored directory by a directory whose subtree preserves
kinds never changes the kind of an existing node. -/
theorem kindAt_insert_dir (t : Tree) (k : String)
    (nm : String) (pm : Nat) (sub sub2 : Tree)
    (hl : lookupChild t k = some (Node.dir nm pm sub))
    (hsub : ∀ q kk, kindAt sub q = some kk → kindAt sub2 q = some kk)
    (nm2 : String) (pm2 : Nat) (q : List String) (kk : Kind)
    (h : kindAt t q = some kk) :
    kindAt (insertChild t k (Node.dir nm2 pm2 sub2)) q = some kk := by
  cases q with
  | nil => simpa [kindAt] using h
  | cons p rest =>
      by_cases hp : p = k
      · subst hp
        cases rest with
        | nil =>
            simp [kindAt, hl, nodeKind] at h
            simp [kindAt, lookup_insertChild_self, nodeKind, h]
        | cons r rs =>
            have h2 : kindAt sub (r :: rs) = some kk := by simpa [kindAt, hl] using h
            have h3 := hsub (r :: rs) kk h2
            simpa [kindAt, lookup_insertChild_self] using h3
      · have he : kindAt (insertChild t k (Node.dir nm2 pm2 sub2)) (p :: rest) =
            kindAt t (p :: rest) := by
          simp only [kindAt, lookup_insertChild_ne t k p _ hp]
        rw [he]
        exact h

/-- The `MkdirAll` walk never changes the kind of an existing node. -/
theorem kindAt_mkdirParts (pm : Nat) (parts : List String) :
    ∀ (t : Tree) (q : List String) (kk : Kind), kindAt t q = some kk →
      kindAt (mkdirParts pm t parts).1 q = some kk := by
  induction parts with
  | nil => intro t q kk h; simpa [mkdirParts] using h
  | cons part rest ih =>
      intro t q kk h
      cases hl : lookupChild t part with
      | none =>
          simp only [mkdirParts, hl]
          exact kindAt_insert_of_none t part _ hl q kk h
      | some cn =>
          cases cn with
          | file nm pm2 c => simpa [mkdirParts, hl] using h
          | dir nm pm2 sub =>
              simp only [mkdirParts, hl]
              exact kindAt_insert_dir t part nm pm2 sub _ hl
                (fun q2 kk2 h2 => ih sub q2 kk2 h2) nm pm2 q kk h

/-- The `create` walk never changes the kind of an existing node. -/
theorem kindAt_createWalk (f : String) (pm : Nat) (c : List Nat) (dp : List String) :
    ∀ (t : Tree) (q : List String) (kk : Kind), kindAt t q = some kk →
      kindAt (createWalk f pm c t dp).1 q = some kk := by
  induction dp with
  | nil =>
      intro t q kk h
      cases hl : lookupChild t f with
      | none =>
          simp only [createWalk, hl]
          exact kindAt_insert_of_none t f _ hl q kk h
      | some cn =>
          cases cn with
          | file nm pm2 c2 =>
              simp only [createWalk, hl]
              exact kindAt_insert_file t f nm pm2 c2 f pm c hl q kk h
          | dir nm pm2 sub => simpa [createWalk, hl] using h
  | cons part rest ih =>
      intro t q kk h
      cases hl : lookupChild t part with
      | none => simpa [createWalk, hl] using h
      | some cn =>
          cases cn with
          | file nm pm2 c2 => simpa [createWalk, hl] using h
          | dir nm pm2 sub =>
              simp only [createWalk, hl]
              exact kindAt_insert_dir t part nm pm2 sub _ hl
                (fun q2 kk2 h2 => ih sub q2 kk2 h2) nm pm2 q kk h

/-- `createWith` never changes the kind of an existing node. -/
theorem kindAt_createWith (t : Tree) (p : String) (pm : Nat) (d : List Nat)
    (q : List String) (kk : Kind) (h : kindAt t q = some kk) :
    kindAt (createWith t p pm d).1 q = some kk := by
  simp only [createWith]
  split
  · exact kindAt_createWalk _ pm d _ t q kk h
  · exact h

/-- No public tree-mutating operation changes the kind of an existing
node. -/
theorem kindAt_step (t : Tree) (op : Op) (q : List String) (kk : Kind)
    (h : kindAt t q = some kk) : kindAt (step t op) q = some kk := by
  cases op with
  | mkdirAllOp p pm =>
      simp only [step, MkdirAll]
      split
      · split
        · exact h
        · exact kindAt_mkdirParts pm (splitPath p) t q kk h
      · exact h
  | writeFileOp p d pm =>
      simp only [step, WriteFile]
      split
      · exact kindAt_createWith t _ pm d q kk h
      · exact h
  | openOp nm => exact h

/-! ## Map-key uniqueness invariant -/

theorem keyAbsent_insertChild (a k : String) (t : Tree) (n : Node)
    (h : keyAbsent a t = true) (hne : k ≠ a) :
    keyAbsent a (insertChild t k n) = true := by
  induction t with
  | nil => simp [insertChild, keyAbsent, hne]
  | cons hd rest ih =>
      obtain ⟨k2, m⟩ := hd
      by_cases h2 : k2 = a
      · simp [keyAbsent, h2] at h
      · simp only [keyAbsent, if_neg h2] at h
        by_cases h3 : k2 = k
        · subst h3
          simp [insertChild, keyAbsent, hne, h]
        · simp [insertChild, h3, keyAbsent, h2, ih h]

theorem keysNodup_insertChild (t : Tree) (k : String) (n : Node)
    (h : keysNodup t = true) : keysNodup (insertChild t k n) = true := by
  induction t with
  | nil => simp [insertChild, keysNodup, keyAbsent]
  | cons hd rest ih =>
      obtain ⟨k2, m⟩ := hd
      simp only [keysNodup, Bool.and_eq_true] at h
      obtain ⟨h1, h2⟩ := h
      by_cases h3 : k2 = k
      · subst h3
        simp [insertChild, keysNodup, h1, h2]
      · have hne : k ≠ k2 := fun hh => h3 hh.symm
        simp [insertChild, h3, keysNodup, keyAbsent_insertChild k2 k rest n h1 hne, ih h2]

/-- The fresh filesystem is well-formed. -/
theorem wfAt_nil : wfAt [] := by
  intro q d h
  cases q with
  | nil =>
      simp [childrenAt] at h
      subst h
      rfl
  | cons p rest => simp [childrenAt, lookupChild] at h

/-- Well-formedness restricts to the subtree of a stored directory. -/
theorem wfAt_sub (t : Tree) (k : String) (nm : String) (pm : Nat) (sub : Tree)
    (h : wfAt t) (hl : lookupChild t k = some (Node.dir nm pm sub)) : wfAt sub := by
  intro q d hq
  exact h (k :: q) d (by simp [childrenAt, hl, hq])

/-- Storing a well-formed node preserves well-formedness. -/
theorem wfAt_insert (t : Tree) (k : String) (n : Node)
    (h : wfAt t) (hn : nodeOk n) : wfAt (insertChild t k n) := by
  intro q d hq
  cases q with
  | nil =>
      simp [childrenAt] at hq
      subst hq
      exact keysNodup_insertChild t k n (h [] t (by simp [childrenAt]))
  | cons p rest =>
      by_cases hp : p = k
      · subst hp
        cases n with
        | file nm pm c => simp [childrenAt, lookup_insertChild_self] at hq
        | dir nm pm sub =>
            simp [childrenAt, lookup_insertChild_self] at hq
            exact hn rest d hq
      · have he : childrenAt (insertChild t k n) (p :: rest) = childrenAt t (p :: rest) := by
          simp only [childrenAt, lookup_insertChild_ne t k p n hp]
        rw [he] at hq
        exact h _ _ hq

/-- The `MkdirAll` walk preserves well-formedness. -/
theorem wfAt_mkdirParts (pm : Nat) (parts : List String) :
    ∀ t : Tree, wfAt t → wfAt (mkdirParts pm t parts).1 := by
  induction parts with
  | nil => intro t h; simpa [mkdirParts] using h
  | cons part rest ih =>
      intro t h
      cases hl : lookupChild t part with
      | none =>
          simp only [mkdirParts, hl]
          exact wfAt_insert t part _ h (ih [] wfAt_nil)
      | some cn =>
          cases cn with
          | file nm pm2 c => simpa [mkdirParts, hl] using h
          | dir nm pm2 sub =>
              simp only [mkdirParts, hl]
              exact wfAt_insert t part _ h (ih sub (wfAt_sub t part nm pm2 sub h hl))

/-- The `create` walk preserves well-formedness. -/
theorem wfAt_createWalk (f : String) (pm : Nat) (c : List Nat) (dp : List String) :
    ∀ t : Tree, wfAt t → wfAt (createWalk f pm c t dp).1 := by
  induction dp with
  | nil =>
      intro t h
      cases hl : lookupChild t f with
      | none =>
          simp only [createWalk, hl]
          exact wfAt_insert t f _ h trivial
      | some cn =>
          cases cn with
          | file nm pm2 c2 =>
              simp only [createWalk, hl]
              exact wfAt_insert t f _ h trivial
          | dir nm pm2 sub => simpa [createWalk, hl] using h
  | cons part rest ih =>
      intro t h
      cases hl : lookupChild t part with
      | none => simpa [createWalk, hl] using h
      | some cn =>
          cases cn with
          | file nm pm2 c2 => simpa [createWalk, hl] using h
          | dir nm pm2 sub =>
              simp only [createWalk, hl]
              exact wfAt_insert t part _ h (ih sub (wfAt_sub t part nm pm2 sub h hl))

/-- `createWith` preserves well-formedness. -/
theorem wfAt_createWith (t : Tree) (p : String) (pm : Nat) (d : List Nat)
    (h : wfAt t) : wfAt (createWith t p pm d).1 := by
  simp only [createWith]
  split
  · exact wfAt_createWalk _ pm d _ t h
  · exact h

/-- Every public operation preserves well-formedness. -/
theorem wfAt_step (t : Tree) (op : Op) (h : wfAt t) : wfAt (step t op) := by
  cases op with
  | mkdirAllOp p pm =>
      simp only [step, MkdirAll]
      split
      · split
        · exact h
        · exact wfAt_mkdirParts pm (splitPath p) t h
      · exact h
  | writeFileOp p d pm =>
      simp only [step, WriteFile]
      split
      · exact wfAt_createWith t _ pm d h
      · exact h
  | openOp nm => exact h

/-- Every state reachable from the fresh filesystem is well-formed. -/
theorem wfAt_run (ops : List Op) : wfAt (run ops) := by
  have key : ∀ (l : List Op) (t : Tree), wfAt t → wfAt (List.foldl step t l) := by
    intro l
    induction l with
    | nil => intro t h; exact h
    | cons op rest ih => intro t h; exact ih (step t op) (wfAt_step t op h)
  exact key ops [] wfAt_nil

/-- `MkdirAll` on a path with an existing file segment fails with that
segment's error and performs no mutation. -/
theorem mkdirParts_file_segment (pm : Nat) (pre : List String) (seg : String)
    (post : List String) :
    ∀ t : Tree, kindAt t (pre ++ [seg]) = some Kind.file →
      mkdirParts pm t (pre ++ seg :: post) = (t, some (seg ++ " is not a directory")) := by
  induction pre with
  | nil =>
      intro t h
      cases hl : lookupChild t seg with
      | none => simp [kindAt, hl] at h
      | some n =>
          cases n with
          | file nm pm2 c => simp [mkdirParts, hl]
          | dir nm pm2 sub => simp [kindAt, hl, nodeKind] at h
  | cons p pre2 ih =>
      intro t h
      cases hl : lookupChild t p with
      | none => simp [kindAt, hl] at h
      | some n =>
          cases n with
          | file nm pm2 c =>
              have he : (pre2 ++ [seg]).isEmpty = false := by cases pre2 <;> rfl
              simp [kindAt, hl, he] at h
          | dir nm pm2 sub =>
              have he : (pre2 ++ [seg]).isEmpty = false := by cases pre2 <;> rfl
              have h2 : kindAt sub (pre2 ++ [seg]) = some Kind.file := by
                simpa [kindAt, hl, he] using h
              have hr := ih sub h2
              simp [mkdirParts, hl, hr, insertChild_lookup_id t p _ hl]

/-! ## WriteFile / Open composition -/

/-- A valid path is not the empty string (`ValidPath("")` is false). -/
theorem validPath_ne_empty (p : String) (hv : validPath p = true) : p ≠ "" := by
  intro hh
  subst hh
  exact absurd hv (by decide)

/-- On a valid non-root path split as `dp ++ [f]`, `WriteFile` is the
create walk with the written permission and content. -/
theorem WriteFile_eq (t : Tree) (p : String) (dp : List String) (f : String)
    (data : List Nat) (pm : Nat) (hv : validPath p = true) (hdot : p ≠ ".")
    (hsplit : splitPath p = dp ++ [f]) :
    WriteFile t p data pm = createWalk f pm data t dp := by
  simp [WriteFile, createWith, hv, hdot, hsplit,
    List.dropLast_concat, List.getLastD_concat]

/-- On a valid non-root path, `Open` is the handle projection of the
`FS.get` walk. -/
theorem Open_eq (t : Tree) (p : String) (hv : validPath p = true) (hdot : p ≠ ".") :
    Open t p =
      match getParts t (splitPath p) with
      | .error e => .error e
      | .ok (Node.file nm pm content) => .ok (Handle.fileH ⟨nm, pm, content, 0, false⟩)
      | .ok (Node.dir nm pm children) => .ok (Handle.dirH ⟨nm, pm, children, 0⟩) := by
  simp [Open, getT, hv, hdot, validPath_ne_empty p hv]

/-- The write/open success path: with an existing parent directory and no
directory under the leaf name, `WriteFile` succeeds, the parent afterwards
maps the leaf to the written file, and `Open` returns a fresh handle
carrying exactly the written bytes and permission. -/
theorem write_open (t : Tree) (p : String) (dp : List String) (f : String)
    (data : List Nat) (pm : Nat) (d : Tree)
    (hv : validPath p = true) (hdot : p ≠ ".")
    (hsplit : splitPath p = dp ++ [f])
    (hparent : getDirParts t dp = .ok d)
    (hnd : ∀ nm2 pm2 sub2, lookupChild d f ≠ some (Node.dir nm2 pm2 sub2)) :
    (WriteFile t p data pm).2 = none ∧
      getDirParts (WriteFile t p data pm).1 dp =
        .ok (insertChild d f (Node.file f pm data)) ∧
      Open (WriteFile t p data pm).1 p = .ok (Handle.fileH ⟨f, pm, data, 0, false⟩) := by
  obtain ⟨h1, h2⟩ := createWalk_ok dp t d f pm data hparent hnd
  rw [WriteFile_eq t p dp f data pm hv hdot hsplit]
  refine ⟨h1, h2, ?_⟩
  rw [Open_eq _ p hv hdot, hsplit, getParts_concat, h2]
  simp [lookup_insertChild_self]

/-! ## Read-loop lemma -/

/-- A successful chunked read takes a prefix of the unread bytes: the chunk
followed by the bytes still unread afterwards is exactly what was unread
before.  Iterating, any read loop over `File.Read` until end-of-data
returns the unread snapshot bytes, which is `File.ReadToEnd`. -/
theorem read_chunk_append (f : File) (n : Nat) (h : (File.Read f n).2.2 = none) :
    (File.Read f n).1 ++
        ((File.Read f n).2.1.content.drop (File.Read f n).2.1.pos) =
      f.content.drop f.pos := by
  by_cases hc : f.closed
  · simp [File.Read, hc] at h
  · by_cases hex : f.content.length ≤ f.pos
    · by_cases hn : n = 0
      · simp [File.Read, hc, hex, hn]
      · simp [File.Read, hc, hex, hn] at h
    · simp only [File.Read, hc, hex, if_false, Bool.false_eq_true, ite_false]
      have hdd : f.content.drop (f.pos + min n (f.content.length - f.pos)) =
          (f.content.drop f.pos).drop (min n (f.content.length - f.pos)) := by
        rw [List.drop_drop, Nat.add_comm]
      simp only [hdd]
      exact List.take_append_drop _ _

/-- Reading a freshly opened handle to exhaustion returns its whole
snapshot and no error, leaving the cursor at the end. -/
theorem ReadToEnd_fresh (nm : String) (pm : Nat) (data : List Nat) :
    File.ReadToEnd ⟨nm, pm, data, 0, false⟩ =
      (data, ⟨nm, pm, data, data.length, false⟩, none) := by
  cases data with
  | nil => rfl
  | cons b bs => simp [File.ReadToEnd, File.Read]

/-! ## Claims -/

/-- Claim C1, counterexample to the frozen statement: on the tree holding
one directory "d", the path "d" is valid and its parent directory (the
root) exists, yet `WriteFile("d", …)` fails with "path is a directory"
instead of succeeding. -/
theorem c1_counterexample :
    validPath "d" = true ∧
      getDirParts (MkdirAll [] "d" 493).1 (splitPath "d").dropLast =
        .ok (MkdirAll [] "d" 493).1 ∧
      WriteFile (MkdirAll [] "d" 493).1 "d" [104, 105] 420 =
        ((MkdirAll [] "d" 493).1, some "path is a directory") :=
  ⟨rfl, rfl, rfl⟩

/-- Claim C1 (amended: the path must additionally not name an existing
directory): for every valid non-root path `p` splitting into parent
segments `dp` and leaf `f`, if the parent directory exists and no
directory is stored under the leaf name, then `WriteFile(p, data, perm)`
succeeds, `Open(p)` succeeds with a fresh file handle, reading that handle
to exhaustion yields exactly `data` with no error, and `Stat` on it
reports size `data.length` and mode `perm`. -/
theorem c1_write_open_read_stat (t : Tree) (p : String) (dp : List String)
    (f : String) (data : List Nat) (pm : Nat) (d : Tree)
    (hv : validPath p = true) (hdot : p ≠ ".")
    (hsplit : splitPath p = dp ++ [f])
    (hparent : getDirParts t dp = .ok d)
    (hnd : ∀ nm2 pm2 sub2, lookupChild d f ≠ some (Node.dir nm2 pm2 sub2)) :
    (WriteFile t p data pm).2 = none ∧
      Open (WriteFile t p data pm).1 p =
        .ok (Handle.fileH ⟨f, pm, data, 0, false⟩) ∧
      (File.ReadToEnd ⟨f, pm, data, 0, false⟩).1 = data ∧
      (File.ReadToEnd ⟨f, pm, data, 0, false⟩).2.2 = none ∧
      File.Stat ⟨f, pm, data, 0, false⟩ = .ok ⟨f, data.length, pm⟩ := by
  obtain ⟨h1, h2, h3⟩ := write_open t p dp f data pm d hv hdot hsplit hparent hnd
  refine ⟨h1, h3, ?_, ?_, ?_⟩
  · rw [ReadToEnd_fresh]
  · rw [ReadToEnd_fresh]
  · simp [File.Stat]

theorem c1_witness :
    (WriteFile [] "a" [1, 2] 7).2 = none ∧
      Open (WriteFile [] "a" [1, 2] 7).1 "a" =
        .ok (Handle.fileH ⟨"a", 7, [1, 2], 0, false⟩) ∧
      (File.ReadToEnd ⟨"a", 7, [1, 2], 0, false⟩).1 = [1, 2] ∧
      (File.ReadToEnd ⟨"a", 7, [1, 2], 0, false⟩).2.2 = none ∧
      File.Stat ⟨"a", 7, [1, 2], 0, false⟩ = .ok ⟨"a", 2, 7⟩ :=
  c1_write_open_read_stat [] "a" [] "a" [1, 2] 7 [] rfl (by decide) rfl rfl
    (fun nm2 pm2 sub2 h => by simp [lookupChild] at h)

/-- Claim C2: after `WriteFile(p, c1, pm)` and `Open(p)` giving handle `h`,
a further `WriteFile(p, c2, pm2)` succeeds and the stored file then reads
back `c2`, while reading `h` to exhaustion still yields exactly `c1`: the
handle is an independent copy that never observes later writes (the second
write replaces the stored node rather than mutating the handle's
snapshot). -/
theorem c2_snapshot_isolation (t : Tree) (p : String) (dp : List String)
    (f : String) (c1 c2 : List Nat) (pm pm2 : Nat) (d : Tree)
    (hv : validPath p = true) (hdot : p ≠ ".")
    (hsplit : splitPath p = dp ++ [f])
    (hparent : getDirParts t dp = .ok d)
    (hnd : ∀ nm2 pm3 sub2, lookupChild d f ≠ some (Node.dir nm2 pm3 sub2)) :
    (WriteFile t p c1 pm).2 = none ∧
      Open (WriteFile t p c1 pm).1 p =
        .ok (Handle.fileH ⟨f, pm, c1, 0, false⟩) ∧
      (WriteFile (WriteFile t p c1 pm).1 p c2 pm2).2 = none ∧
      Open (WriteFile (WriteFile t p c1 pm).1 p c2 pm2).1 p =
        .ok (Handle.fileH ⟨f, pm2, c2, 0, false⟩) ∧
      (File.ReadToEnd ⟨f, pm, c1, 0, false⟩).1 = c1 ∧
      (File.ReadToEnd ⟨f, pm, c1, 0, false⟩).2.2 = none := by
  obtain ⟨h1, h2, h3⟩ := write_open t p dp f c1 pm d hv hdot hsplit hparent hnd
  have hnd2 : ∀ nm2 pm3 sub2,
      lookupChild (insertChild d f (Node.file f pm c1)) f ≠
        some (Node.dir nm2 pm3 sub2) := by
    intro nm2 pm3 sub2 hcontra
    simp [lookup_insertChild_self] at hcontra
  obtain ⟨g1, g2, g3⟩ :=
    write_open (WriteFile t p c1 pm).1 p dp f c2 pm2 _ hv hdot hsplit h2 hnd2
  refine ⟨h1, h3, g1, g3, ?_, ?_⟩
  · rw [ReadToEnd_fresh]
  · rw [ReadToEnd_fresh]

theorem c2_witness :
    (WriteFile [] "a" [1] 7).2 = none ∧
      Open (WriteFile [] "a" [1] 7).1 "a" =
        .ok (Handle.fileH ⟨"a", 7, [1], 0, false⟩) ∧
      (WriteFile (WriteFile [] "a" [1] 7).1 "a" [2, 3] 6).2 = none ∧
      Open (WriteFile (WriteFile [] "a" [1] 7).1 "a" [2, 3] 6).1 "a" =
        .ok (Handle.fileH ⟨"a", 6, [2, 3], 0, false⟩) ∧
      (File.ReadToEnd ⟨"a", 7, [1], 0, false⟩).1 = [1] ∧
      (File.ReadToEnd ⟨"a", 7, [1], 0, false⟩).2.2 = none :=
  c2_snapshot_isolation [] "a" [] "a" [1] [2, 3] 7 6 [] rfl (by decide) rfl rfl
    (fun nm2 pm3 sub2 h => by simp [lookupChild] at h)

/-- Claim C5: for a valid non-root path split as `dp ++ [f]`, `WriteFile`
fails with the not-exist error when the parent resolution reports a
missing segment, and with the is-a-directory error when a directory is
stored under the leaf name; in both cases the tree is unchanged, so
nothing is created or overwritten. -/
theorem c5_writefile_errors (t : Tree) (p : String) (dp : List String)
    (f : String) (data : List Nat) (pm : Nat)
    (hv : validPath p = true) (hdot : p ≠ ".")
    (hsplit : splitPath p = dp ++ [f]) :
    (getDirParts t dp = .error "no such file or directory" →
        WriteFile t p data pm = (t, some "no such file or directory")) ∧
      (∀ d nm2 pm2 sub2, getDirParts t dp = .ok d →
        lookupChild d f = some (Node.dir nm2 pm2 sub2) →
        WriteFile t p data pm = (t, some "path is a directory")) := by
  constructor
  · intro h
    rw [WriteFile_eq t p dp f data pm hv hdot hsplit]
    exact createWalk_parent_err dp t f pm data _ h
  · intro d nm2 pm2 sub2 h hl
    rw [WriteFile_eq t p dp f data pm hv hdot hsplit]
    exact createWalk_dir_leaf dp t d f pm data nm2 pm2 sub2 h hl

theorem c5_witness :
    WriteFile (MkdirAll [] "d" 493).1 "b/x" [1] 7 =
      ((MkdirAll [] "d" 493).1, some "no such file or directory") ∧
      WriteFile (MkdirAll [] "d" 493).1 "d" [1] 7 =
        ((MkdirAll [] "d" 493).1, some "path is a directory") :=
  ⟨(c5_writefile_errors (MkdirAll [] "d" 493).1 "b/x" ["b"] "x" [1] 7 rfl
      (by decide) rfl).1 rfl,
    (c5_writefile_errors (MkdirAll [] "d" 493).1 "d" [] "d" [1] 7 rfl
      (by decide) rfl).2 (MkdirAll [] "d" 493).1 "d" 493 [] rfl rfl⟩

/-- Claim C6: a successful `MkdirAll` is idempotent — running it again with
the same path and permission returns no error and leaves the tree exactly
as after the first call; and `MkdirAll(".")` always succeeds without
modifying the tree. -/
theorem c6_mkdirall_idempotent (t : Tree) (p : String) (pm : Nat)
    (h : (MkdirAll t p pm).2 = none) :
    MkdirAll (MkdirAll t p pm).1 p pm = ((MkdirAll t p pm).1, none) ∧
      MkdirAll t "." pm = (t, none) := by
  constructor
  · by_cases hv : validPath p = true
    · by_cases hdot : p = "."
      · subst hdot
        simp [MkdirAll, hv]
      · have h2 : (mkdirParts pm t (splitPath p)).2 = none := by
          simpa [MkdirAll, hv, hdot] using h
        have h3 := mkdirParts_idem pm (splitPath p) t h2
        simp [MkdirAll, hv, hdot, h3]
    · simp [MkdirAll, hv] at h
  · have h1 : validPath "." = true := rfl
    simp [MkdirAll, h1]

theorem c6_witness :
    MkdirAll (MkdirAll [] "a/b" 7).1 "a/b" 7 = ((MkdirAll [] "a/b" 7).1, none) ∧
      MkdirAll [] "." 7 = ([], none) :=
  c6_mkdirall_idempotent [] "a/b" 7 rfl

/-- Claim C10: `WriteFile(".")` always fails with the invalid-path error
(produced by `create` re-validating the empty string after `WriteFile`
maps "." to "") and leaves the tree unchanged — not with an
is-a-directory error — even though "." is accepted by `MkdirAll` (a no-op
success) and by `Open` (which returns the root directory handle). -/
theorem c10_writefile_root (t : Tree) (data : List Nat) (pm : Nat) :
    WriteFile t "." data pm = (t, some "Invalid path") ∧
      MkdirAll t "." pm = (t, none) ∧
      Open t "." = .ok (Handle.dirH ⟨"", 0, t, 0⟩) := by
  have h1 : validPath "." = true := rfl
  have h2 : validPath "" = false := rfl
  refine ⟨?_, ?_, ?_⟩
  · simp [WriteFile, createWith, h1, h2]
  · simp [MkdirAll, h1]
  · simp [Open, getT, h1]

/-- Claim C3, evaluated on a directory handle over children {a, b, c}:
`ReadDir(0)` and `ReadDir(-1)` return all three entries with no error, and
the first `ReadDir(2)` returns the first two entries; but the second
`ReadDir(2)` returns ZERO entries together with `io.EOF` — not the
remaining entry `c` — because the collection loop
`for i := d.idx; i < n && i < len(names); i++` bounds `i` by the request
count `n` itself instead of by `d.idx + n`, silently dropping every entry
whose index is at least `n` (the claim and the spec require the remainder
plus the end-of-data signal). -/
theorem c3_readdir_pagination :
    (fhDir.ReadDir ⟨"x", 7, [("a", Node.file "a" 1 [1]), ("b", Node.file "b" 1 [2]),
        ("c", Node.file "c" 1 [3])], 0⟩ 0).1.map FileInfo.name = ["a", "b", "c"] ∧
      (fhDir.ReadDir ⟨"x", 7, [("a", Node.file "a" 1 [1]), ("b", Node.file "b" 1 [2]),
        ("c", Node.file "c" 1 [3])], 0⟩ 0).2.2 = none ∧
      (fhDir.ReadDir ⟨"x", 7, [("a", Node.file "a" 1 [1]), ("b", Node.file "b" 1 [2]),
        ("c", Node.file "c" 1 [3])], 0⟩ (-1)).1.map FileInfo.name = ["a", "b", "c"] ∧
      (fhDir.ReadDir ⟨"x", 7, [("a", Node.file "a" 1 [1]), ("b", Node.file "b" 1 [2]),
        ("c", Node.file "c" 1 [3])], 0⟩ 2).1.map FileInfo.name = ["a", "b"] ∧
      (fhDir.ReadDir ⟨"x", 7, [("a", Node.file "a" 1 [1]), ("b", Node.file "b" 1 [2]),
        ("c", Node.file "c" 1 [3])], 0⟩ 2).2.1.idx = 2 ∧
      (fhDir.ReadDir ⟨"x", 7, [("a", Node.file "a" 1 [1]), ("b", Node.file "b" 1 [2]),
        ("c", Node.file "c" 1 [3])], 0⟩ 2).2.2 = none ∧
      (fhDir.ReadDir ⟨"x", 7, [("a", Node.file "a" 1 [1]), ("b", Node.file "b" 1 [2]),
        ("c", Node.file "c" 1 [3])], 2⟩ 2).1 = [] ∧
      (fhDir.ReadDir ⟨"x", 7, [("a", Node.file "a" 1 [1]), ("b", Node.file "b" 1 [2]),
        ("c", Node.file "c" 1 [3])], 2⟩ 2).2.2 = some "EOF" :=
  ⟨rfl, rfl, rfl, rfl, rfl, rfl, rfl, rfl⟩

/-- Claim C4 (the `Seek` method is modelled from the spec, as its code is
not among the sources here): on an open handle, `Seek(offset, whence)`
succeeds, repositioning the cursor relative to start (whence 0), current
position (whence 1) or end (whence 2) with the result clamped to
`[0, snapshot length]`, and the handle then reads from the new position;
`Seek` fails after `Close`.  The spec's worked example holds: with content
"0123456789" (bytes 48..57), reading 3 bytes yields "012", 3 more yield
"345", seeking to the start returns offset 0, and reading 3 bytes yields
"012" again. -/
theorem c4_seek (h : File) (off : Int) (w : Nat) (hopen : h.closed = false) :
    ((File.Seek h off w).2.2 = none ∧
        0 ≤ (File.Seek h off w).1 ∧
        (File.Seek h off w).1 ≤ (h.content.length : Int) ∧
        (File.Seek h off w).2.1 = { h with pos := (File.Seek h off w).1.toNat } ∧
        (w = 0 → (File.Seek h off w).1 =
          min (max off 0) (h.content.length : Int)) ∧
        (w = 1 → (File.Seek h off w).1 =
          min (max ((h.pos : Int) + off) 0) (h.content.length : Int)) ∧
        (w = 2 → (File.Seek h off w).1 =
          min (max ((h.content.length : Int) + off) 0) (h.content.length : Int))) ∧
      (∀ h2 : File, h2.closed = true →
        File.Seek h2 off w = (0, h2, some "file closed")) ∧
      (File.Read ⟨"f", 455, [48, 49, 50, 51, 52, 53, 54, 55, 56, 57], 0, false⟩ 3 =
          ([48, 49, 50], ⟨"f", 455, [48, 49, 50, 51, 52, 53, 54, 55, 56, 57], 3, false⟩,
            none) ∧
        File.Read ⟨"f", 455, [48, 49, 50, 51, 52, 53, 54, 55, 56, 57], 3, false⟩ 3 =
          ([51, 52, 53], ⟨"f", 455, [48, 49, 50, 51, 52, 53, 54, 55, 56, 57], 6, false⟩,
            none) ∧
        File.Seek ⟨"f", 455, [48, 49, 50, 51, 52, 53, 54, 55, 56, 57], 6, false⟩ 0 0 =
          (0, ⟨"f", 455, [48, 49, 50, 51, 52, 53, 54, 55, 56, 57], 0, false⟩, none) ∧
        (File.Read ⟨"f", 455, [48, 49, 50, 51, 52, 53, 54, 55, 56, 57], 0, false⟩ 3).1 =
          [48, 49, 50]) := by
  refine ⟨⟨?_, ?_, ?_, ?_, ?_, ?_, ?_⟩, ?_, rfl, rfl, rfl, rfl⟩
  · simp [File.Seek, hopen]
  · simp [File.Seek, hopen]
  · simp [File.Seek, hopen]
  · simp [File.Seek, hopen]
  · intro hw
    subst hw
    simp [File.Seek, hopen]
  · intro hw
    subst hw
    simp [File.Seek, hopen]
  · intro hw
    subst hw
    simp [File.Seek, hopen]
  · intro h2 hc
    simp [File.Seek, hc]

theorem c4_witness :
    (File.Seek ⟨"f", 7, [1, 2], 1, false⟩ (-5) 1).1 = 0 ∧
      (File.Seek ⟨"f", 7, [1, 2], 1, false⟩ (-5) 1).2.2 = none := by
  obtain ⟨⟨g1, g2, g3, g4, g5, g6, g7⟩, g8, g9⟩ :=
    c4_seek ⟨"f", 7, [1, 2], 1, false⟩ (-5) 1 rfl
  refine ⟨?_, g1⟩
  rw [g6 rfl]
  decide

/-- Claim C7: in every state reachable from the fresh filesystem by
`MkdirAll` / `WriteFile` / `Open` operations, every reachable directory
maps each child name to at most one node (`wfAt`); no operation ever
changes the kind (file vs directory) of a node already stored at any path;
`MkdirAll` on a path with an existing file segment fails with that
segment's not-a-directory error leaving the tree in place; and the create
walk of `WriteFile` fails with "path is a directory" leaving the tree in
place when a directory is stored under the leaf name. -/
theorem c7_tree_invariants :
    (∀ ops : List Op, wfAt (run ops)) ∧
      (∀ (t : Tree) (op : Op) (q : List String) (k : Kind),
        kindAt t q = some k → kindAt (step t op) q = some k) ∧
      (∀ (t : Tree) (pre : List String) (seg : String) (post : List String) (pm : Nat),
        kindAt t (pre ++ [seg]) = some Kind.file →
          mkdirParts pm t (pre ++ seg :: post) =
            (t, some (seg ++ " is not a directory"))) ∧
      (∀ (t d : Tree) (dp : List String) (f : String) (pm : Nat) (c : List Nat)
          (nm2 : String) (pm2 : Nat) (sub2 : Tree),
        getDirParts t dp = .ok d →
          lookupChild d f = some (Node.dir nm2 pm2 sub2) →
          createWalk f pm c t dp = (t, some "path is a directory")) :=
  ⟨wfAt_run,
    kindAt_step,
    fun t pre seg post pm h => mkdirParts_file_segment pm pre seg post t h,
    fun t d dp f pm c nm2 pm2 sub2 h hl =>
      createWalk_dir_leaf dp t d f pm c nm2 pm2 sub2 h hl⟩

theorem c7_witness :
    kindAt (run [Op.mkdirAllOp "a" 7]) ["a"] = some Kind.dir ∧
      kindAt (step (run [Op.mkdirAllOp "a" 7]) (Op.writeFileOp "a" [9] 6)) ["a"] =
        some Kind.dir ∧
      mkdirParts 7 (run [Op.writeFileOp "f" [1] 6]) ["f", "x"] =
        (run [Op.writeFileOp "f" [1] 6], some "f is not a directory") ∧
      createWalk "a" 7 [1] (run [Op.mkdirAllOp "a" 7]) [] =
        (run [Op.mkdirAllOp "a" 7], some "path is a directory") :=
  ⟨rfl,
    c7_tree_invariants.2.1 (run [Op.mkdirAllOp "a" 7]) (Op.writeFileOp "a" [9] 6)
      ["a"] Kind.dir rfl,
    c7_tree_invariants.2.2.1 (run [Op.writeFileOp "f" [1] 6]) [] "f" ["x"] 7 rfl,
    c7_tree_invariants.2.2.2 (run [Op.mkdirAllOp "a" 7]) (run [Op.mkdirAllOp "a" 7])
      [] "a" 7 [1] "a" 7 [] rfl rfl⟩

/-- Claim C8 (the hook wiring of `New`/`Open` is modelled from the spec,
as its code is not among the sources here): with a hook that answers fixed
replacement content for one target path and passes every other call
through unchanged, opening the target yields exactly the hook's content
whether a file is stored there or the resolution failed, while opening any
other path that does not exist still fails with the original not-exist
error. -/
theorem c8_open_hook (t : Tree) (hook : OpenHookFn) (target : String)
    (content : List Nat)
    (hv : validPath target = true) (hdot : target ≠ ".")
    (hhook : ∀ c e, hook target c e = (content, none))
    (hpass : ∀ p c e, p ≠ target → hook p c e = (c.getD [], e)) :
    (∀ nm pm c0, getT t target = .ok (Node.file nm pm c0) →
        OpenWithHook t hook target = .ok (Handle.fileH ⟨nm, pm, content, 0, false⟩)) ∧
      (∀ e, getT t target = .error e →
        OpenWithHook t hook target =
          .ok (Handle.fileH ⟨target, 0o666, content, 0, false⟩)) ∧
      (∀ p, validPath p = true → p ≠ "." → p ≠ target →
        getT t p = .error "no such file or directory" →
        OpenWithHook t hook p = .error "no such file or directory") := by
  refine ⟨?_, ?_, ?_⟩
  · intro nm pm c0 hres
    simp [OpenWithHook, hv, hdot, hres, hhook]
  · intro e hres
    simp [OpenWithHook, hv, hdot, hres, hhook]
  · intro p hv2 hdot2 hne hres
    simp [OpenWithHook, hv2, hdot2, hres,
      hpass p none (some "no such file or directory") hne]

theorem c8_witness :
    OpenWithHook [("t", Node.file "t" 6 [1])]
        (fun p c e => if p = "t" then ([7], none) else (c.getD [], e)) "t" =
      .ok (Handle.fileH ⟨"t", 6, [7], 0, false⟩) ∧
      OpenWithHook []
          (fun p c e => if p = "t" then ([7], none) else (c.getD [], e)) "t" =
        .ok (Handle.fileH ⟨"t", 0o666, [7], 0, false⟩) ∧
      OpenWithHook []
          (fun p c e => if p = "t" then ([7], none) else (c.getD [], e)) "u" =
        .error "no such file or directory" := by
  have hhook : ∀ c e,
      ((fun p c e => if p = "t" then ([7], none) else (c.getD [], e)) : OpenHookFn)
          "t" c e = ([7], none) := by
    intro c e
    simp
  have hpass : ∀ p c e, p ≠ "t" →
      ((fun p c e => if p = "t" then ([7], none) else (c.getD [], e)) : OpenHookFn)
          p c e = (c.getD [], e) := by
    intro p c e hne
    simp [hne]
  refine ⟨?_, ?_, ?_⟩
  · exact (c8_open_hook [("t", Node.file "t" 6 [1])] _ "t" [7] rfl (by decide)
      hhook hpass).1 "t" 6 [1] rfl
  · exact (c8_open_hook [] _ "t" [7] rfl (by decide) hhook hpass).2.1
      "no such file or directory" rfl
  · exact (c8_open_hook [] _ "t" [7] rfl (by decide) hhook hpass).2.2
      "u" rfl (by decide) (by decide) rfl

/-- Claim C9: for a file handle that is open, the first `Close` succeeds
and marks it closed; every `Close` on an already-closed handle fails;
after a close, `Stat` and `Read` fail with the closed-handle error, while
before it `Stat` succeeds and `Read` never fails with the closed-handle
error (at exhaustion `Read` returns the end-of-data signal, which the
spec's error taxonomy classes as a terminal signal rather than a
failure). -/
theorem c9_close_semantics (h : File) (hopen : h.closed = false) :
    File.Close h = ({ h with closed := true }, none) ∧
      (∀ h2 : File, h2.closed = true → File.Close h2 = (h2, some "file closed")) ∧
      File.Stat { h with closed := true } = .error "file closed" ∧
      (∀ n, File.Read { h with closed := true } n =
        ([], { h with closed := true }, some "file closed")) ∧
      File.Stat h = .ok ⟨h.name, h.content.length - h.pos, h.perm⟩ ∧
      (∀ n, (File.Read h n).2.2 ≠ some "file closed") := by
  refine ⟨?_, ?_, ?_, ?_, ?_, ?_⟩
  · simp [File.Close, hopen]
  · intro h2 hc
    simp [File.Close, hc]
  · simp [File.Stat]
  · intro n
    simp [File.Read]
  · simp [File.Stat, hopen]
  · intro n
    simp only [File.Read, hopen, Bool.false_eq_true, if_false]
    split_ifs <;> simp

theorem c9_witness :
    File.Close ⟨"a", 6, [1], 0, false⟩ = (⟨"a", 6, [1], 0, true⟩, none) ∧
      File.Close ⟨"a", 6, [1], 0, true⟩ = (⟨"a", 6, [1], 0, true⟩, some "file closed") ∧
      File.Stat ⟨"a", 6, [1], 0, true⟩ = .error "file closed" ∧
      File.Stat ⟨"a", 6, [1], 0, false⟩ = .ok ⟨"a", 1, 6⟩ ∧
      (File.Read ⟨"a", 6, [1], 0, false⟩ 1).2.2 ≠ some "file closed" := by
  obtain ⟨h1, h2, h3, h4, h5, h6⟩ := c9_close_semantics ⟨"a", 6, [1], 0, false⟩ rfl
  exact ⟨h1, h2 ⟨"a", 6, [1], 0, true⟩ rfl, h3, h5, h6 1⟩

end Memfs
